import Mathlib

/-!
Shallow embedding of the multi-agent tourism system (`tourism_agent.py`).

Text is modelled as `List Char`.  Python string primitives used by the
source (`str.lower`, `str.find`, `in`, slicing, `str.strip`, `str.split`,
`' '.join`, `str.title`, `str.replace`) are given executable Lean
counterparts, and the intent-analysis pipeline (`_extract_place`,
`_analyze_intent`, `process_query`) and the places post-processing of
`PlacesAgent.get_tourist_attractions` are translated from the source.
The external network collaborators (geocoding, weather, overpass) are
modelled as total `Option`/`List`-returning function parameters, as the
specification prescribes at the interface boundary.
-/

set_option autoImplicit false

abbrev Str := List Char

/-- Coerce a Lean string literal to the `List Char` text model. -/
def S (s : String) : Str := s.data

/-- ASCII lower-casing of one character, as Python `str.lower` acts on ASCII. -/
def lowerChar (c : Char) : Char :=
  if 65 ≤ c.toNat ∧ c.toNat ≤ 90 then Char.ofNat (c.toNat + 32) else c

/-- ASCII upper-casing of one character, as Python `str.upper` acts on ASCII. -/
def upperChar (c : Char) : Char :=
  if 97 ≤ c.toNat ∧ c.toNat ≤ 122 then Char.ofNat (c.toNat - 32) else c

/-- Python `s.lower()` on the ASCII fragment. -/
def toLowerStr (s : Str) : Str := s.map lowerChar

/-- Index of the first occurrence of `needle` in `hay`
(Python `hay.find(needle)`, with `none` standing for `-1`). -/
def findSub (needle : Str) : Str → Option Nat
  | [] => if needle.isPrefixOf ([] : Str) then some 0 else none
  | c :: t =>
    if needle.isPrefixOf (c :: t) then some 0
    else (findSub needle t).map (· + 1)

/-- Python `needle in hay`. -/
def containsSub (hay needle : Str) : Bool := (findSub needle hay).isSome

/-- Python `s.strip()` (whitespace from both ends). -/
def pyTrim (s : Str) : Str :=
  ((s.dropWhile Char.isWhitespace).reverse.dropWhile Char.isWhitespace).reverse

/-- Python `s.strip(cs)`: remove characters of `cs` from both ends. -/
def pyStripChars (cs s : Str) : Str :=
  ((s.dropWhile (cs.contains ·)).reverse.dropWhile (cs.contains ·)).reverse

/-- Helper for `words`: split on whitespace, carrying the reversed current token. -/
def splitWSAux : Str → Str → List Str
  | [], acc => if acc.isEmpty then [] else [acc.reverse]
  | c :: t, acc =>
    if c.isWhitespace then
      if acc.isEmpty then splitWSAux t [] else acc.reverse :: splitWSAux t []
    else splitWSAux t (c :: acc)

/-- Python `s.split()` with no argument: whitespace-separated tokens, no empties. -/
def words (s : Str) : List Str := splitWSAux s []

/-- Python `sep.join(parts)`. -/
def joinSep (sep : Str) : List Str → Str
  | [] => []
  | [x] => x
  | x :: xs => x ++ sep ++ joinSep sep xs

/-- Python `s[0].isupper()` guarded by nonemptiness. -/
def isUpperFirst : Str → Bool
  | [] => false
  | c :: _ => c.isUpper

/-- Python `s.replace(Char.ofNat 95, Char.ofNat 32)` (underscore to space). -/
def replaceUS (s : Str) : Str := s.map (fun c => if c == '_' then ' ' else c)

/-- Helper for `pyTitle`: the Bool records whether the previous char was alphabetic. -/
def pyTitleGo : Bool → Str → Str
  | _, [] => []
  | prevAlpha, c :: t =>
    (if c.isAlpha then (if prevAlpha then lowerChar c else upperChar c) else c) ::
      pyTitleGo c.isAlpha t

/-- Python `s.title()` on the ASCII fragment. -/
def pyTitle (s : Str) : Str := pyTitleGo false s

/-- Decimal rendering of a natural number. -/
def showNat (n : Nat) : Str := (Nat.repr n).data

/-- Decimal rendering of an integer. -/
def showInt (i : Int) : Str := (Int.repr i).data

/-! ## Data model (the dataclasses of the source) -/

/-- `Location` dataclass.  Coordinates carry no arithmetic in the verified
fragment, so they are modelled as integers. -/
structure Location where
  name : Str
  latitude : Int
  longitude : Int
  display_name : Str
deriving Repr, DecidableEq

/-- `WeatherInfo` dataclass. -/
structure WeatherInfo where
  temperature : Int
  rain_chance : Int
  weather_code : Int
  description : Str
deriving Repr, DecidableEq

/-- `Place` dataclass. -/
structure Place where
  name : Str
  type : Str
  latitude : Int
  longitude : Int
deriving Repr, DecidableEq

/-- The intent record returned by `_analyze_intent`. -/
structure Intent where
  place : Str
  needs_weather : Bool
  needs_places : Bool
deriving Repr, DecidableEq

/-! ## `TourismParentAgent._extract_place` -/

/-- The ordered `(pattern, search_pattern)` pairs of `_extract_place`. -/
def patterns : List (Str × Str) :=
  [ (S "going to ", S " going to ")
  , (S "go to ", S " go to ")
  , (S "visit ", S " visit ")
  , (S "in ", S " in ")
  , (S "to ", S " to ")
  , (S "travel to ", S " travel to ")
  , (S "trip to ", S " trip to ")
  , (S "headed to ", S " headed to ")
  , (S "flying to ", S " flying to ") ]

/-- The delimiter list of `_extract_place`, in source order. -/
def delimiters : List Str :=
  [ S ",", S "?", S ".", S "!", S " and ", S " what ", S " let", S " how"
  , S " when", S " where" ]

/-- One delimiter step: cut `s` at the first occurrence of `d` in
`s.lower()` when present (`after_pattern[:after_pattern.lower().find(delimiter)]`). -/
def truncAt (s d : Str) : Str :=
  match findSub d (toLowerStr s) with
  | some p => s.take p
  | none => s

/-- The delimiter loop of `_extract_place`, applied in list order. -/
def truncDelims (s : Str) : Str := delimiters.foldl truncAt s

/-- `user_lower.find(search_pattern) + len(search_pattern)`: Python `find`
yields `-1` on a miss, so a miss produces `len(search_pattern) - 1`. -/
def pyFindPlus (search lower : Str) : Nat :=
  match findSub search lower with
  | some i => i + search.length
  | none => search.length - 1

/-- `after_pattern = user_input[idx:]` for a given search pattern. -/
def candidateOf (user_input lower search : Str) : Str :=
  user_input.drop (pyFindPlus search lower)

/-- The pattern loop of `_extract_place`: first pattern whose padded search
string occurs in the padded lower text and whose truncated, trimmed
candidate is nonempty wins. -/
def tryPatterns (user_input lower : Str) : List (Str × Str) → Option Str
  | [] => none
  | (_, search) :: rest =>
    if containsSub (S " " ++ lower ++ S " ") search then
      let place := pyTrim (truncDelims (candidateOf user_input lower search))
      if place.isEmpty then tryPatterns user_input lower rest else some place
    else tryPatterns user_input lower rest

/-- The punctuation characters stripped by the capitalized-word fallback. -/
def punctChars : Str := S ",.?!\x27\x22"

/-- The fallback's skip set of capitalized non-place words. -/
def skip_words : List Str :=
  [ S "I", S "I\x27m", S "What", S "Where", S "How", S "When", S "Can"
  , S "Could", S "Should", S "Would", S "The" ]

/-- The fallback loop over whitespace tokens: clean each token, keep it when
its first character is uppercase and it is not in the skip set. -/
def capLoop : List Str → List Str
  | [] => []
  | w :: rest =>
    let wc := pyStripChars punctChars w
    if !wc.isEmpty && isUpperFirst wc && !(skip_words.contains wc) then
      wc :: capLoop rest
    else capLoop rest

/-- The capitalized-word fallback of `_extract_place`. -/
def fallbackCap (user_input : Str) : Str :=
  let capitalized := capLoop (words user_input)
  if capitalized.isEmpty then [] else joinSep (S " ") capitalized

/-- `TourismParentAgent._extract_place`. -/
def extract_place (user_input user_lower : Str) : Str :=
  match tryPatterns user_input user_lower patterns with
  | some p => p
  | none => fallbackCap user_input

/-! ## `TourismParentAgent._analyze_intent` -/

/-- The weather keyword list. -/
def weather_keywords : List Str :=
  [ S "weather", S "temperature", S "temp", S "rain", S "hot", S "cold"
  , S "climate", S "forecast", S "sunny", S "cloudy", S "warm", S "cool"
  , S "degrees", S "celsius", S "fahrenheit" ]

/-- The places keyword list. -/
def places_keywords : List Str :=
  [ S "places", S "visit", S "attractions", S "see", S "trip", S "plan"
  , S "go", S "tourist", S "sights", S "recommendations", S "where"
  , S "what to do", S "things to do", S "explore", S "tourism" ]

/-- `needs_weather = any(keyword in user_lower for keyword in weather_keywords)`. -/
def needs_weather_of (lower : Str) : Bool :=
  weather_keywords.any (fun k => containsSub lower k)

/-- The keyword-set part of `needs_places`. -/
def needs_places_kw (lower : Str) : Bool :=
  places_keywords.any (fun k => containsSub lower k)

/-- `needs_places` after the plan+trip override and the default-intent rule. -/
def needs_places_of (lower place : Str) : Bool :=
  let p1 :=
    if containsSub lower (S "plan") && containsSub lower (S "trip") then true
    else needs_places_kw lower
  if !needs_weather_of lower && !p1 && !place.isEmpty then true else p1

/-- `TourismParentAgent._analyze_intent`. -/
def analyze_intent (user_input : Str) : Intent :=
  let lower := toLowerStr user_input
  let place := extract_place user_input lower
  ⟨place, needs_weather_of lower, needs_places_of lower place⟩

/-! ## `TourismParentAgent.process_query`

The three collaborators are function parameters, total over their inputs
(`Option` for the fallible lookups, a plain list for places), matching the
interface contracts of the specification. -/

/-- The no-place guidance message. -/
def guidanceMsg : Str :=
  S "I couldn\x27t identify which place you\x27re asking about. Please mention a specific location. For example: \x27I\x27m going to Paris\x27 or \x27What\x27s the weather in Tokyo?\x27"

/-- The geocoding-miss message. -/
def notFoundMsg (pl : Str) : Str :=
  S "I\x27m sorry, I don\x27t know where \x27" ++
    (pl ++ S "\x27 is. It doesn\x27t seem to exist in my database. Could you please check the spelling or try a different place?")

/-- The rendered weather section. -/
def weather_text (pl : Str) (w : WeatherInfo) : Str :=
  S "In " ++
    (pl ++ (S ", it\x27s currently " ++ showInt w.temperature ++ S "°C with " ++
      w.description ++ S " and a " ++ showInt w.rain_chance ++
      S "% chance of rain."))

/-- The weather-failure apology section. -/
def weatherApology (pl : Str) : Str :=
  S "I couldn\x27t fetch weather information for " ++ (pl ++ S " at the moment.")

/-- The numbered attraction lines of the places section. -/
def placesLines : Nat → List Place → Str
  | _, [] => []
  | i, p :: rest =>
    S "\n  " ++ showNat i ++ S ". " ++ p.name ++ S " (" ++ p.type ++ S ")" ++
      placesLines (i + 1) rest

/-- The rendered places section. -/
def placesText (pl : Str) (ps : List Place) : Str :=
  S "Here are some great places you can visit in " ++
    (pl ++ (S ":" ++ placesLines 1 ps))

/-- The empty-places apology section. -/
def placesApology (pl : Str) : Str :=
  S "I couldn\x27t find specific tourist attractions in " ++
    (pl ++ S ", but it\x27s still worth exploring!")

/-- The place-found-but-no-capability message. -/
def noActionableMsg (pl : Str) : Str :=
  S "I found " ++
    (pl ++ S ", but I\x27m not sure what information you need. You can ask about weather or places to visit!")

/-- The weather part of `response_parts` (empty when not requested). -/
def weatherSection (getW : Location → Option WeatherInfo) (intent : Intent)
    (loc : Location) : List Str :=
  if intent.needs_weather then
    [match getW loc with
     | some w => weather_text intent.place w
     | none => weatherApology intent.place]
  else []

/-- The places part of `response_parts` (empty when not requested). -/
def placesSection (getP : Location → Nat → List Place) (intent : Intent)
    (loc : Location) : List Str :=
  if intent.needs_places then
    [match getP loc 5 with
     | [] => placesApology intent.place
     | ps => placesText intent.place ps]
  else []

/-- `response_parts` after both capability steps. -/
def build_parts (getW : Location → Option WeatherInfo)
    (getP : Location → Nat → List Place) (intent : Intent) (loc : Location) :
    List Str :=
  weatherSection getW intent loc ++ placesSection getP intent loc

/-- `TourismParentAgent.process_query`, with the collaborators as parameters. -/
def process_query (gc : Str → Option Location)
    (getW : Location → Option WeatherInfo)
    (getP : Location → Nat → List Place) (user_input : Str) : Str :=
  if (analyze_intent user_input).place.isEmpty then guidanceMsg
  else
    match gc (analyze_intent user_input).place with
    | none => notFoundMsg (analyze_intent user_input).place
    | some loc =>
      if (build_parts getW getP (analyze_intent user_input) loc).isEmpty then
        noActionableMsg (analyze_intent user_input).place
      else joinSep (S "\n\n") (build_parts getW getP (analyze_intent user_input) loc)

/-! ## `PlacesAgent.get_tourist_attractions` (response post-processing)

The network call and JSON decoding are external; what the claims concern is
the loop over the decoded `elements` array.  An element carries optional
top-level coordinates, an optional `center` pair, and a tag map. -/

/-- One decoded overpass element. -/
structure OElement where
  lat : Option Int
  lon : Option Int
  center : Option (Int × Int)
  tags : List (Str × Str)
deriving Repr, DecidableEq

/-- Coordinate selection: top-level `lat`/`lon` first, then `center`. -/
def coordsOf (e : OElement) : Option (Int × Int) :=
  match e.lat, e.lon with
  | some la, some lo => some (la, lo)
  | _, _ => e.center

/-- Python `tags.get(k, dflt)` over the association list. -/
def tagGetD (tags : List (Str × Str)) (k dflt : Str) : Str :=
  match List.lookup k tags with
  | some v => v
  | none => dflt

/-- `tags.get(S "name", S "")`. -/
def nameOf (e : OElement) : Str := tagGetD e.tags (S "name") []

/-- The rendered attraction type of an element. -/
def typeOf (e : OElement) : Str :=
  pyTitle (replaceUS (tagGetD e.tags (S "tourism")
    (tagGetD e.tags (S "historic") (S "attraction"))))

/-- The element loop of `get_tourist_attractions`: `seen` is the name set,
`count` the number of places already appended; the cap is checked after
each append. -/
def gta_go (limit : Nat) : List OElement → List Str → Nat → List Place
  | [], _, _ => []
  | e :: rest, seen, count =>
    match coordsOf e with
    | none => gta_go limit rest seen count
    | some (la, lo) =>
      if (nameOf e).isEmpty || seen.contains (nameOf e) then
        gta_go limit rest seen count
      else if limit ≤ count + 1 then [⟨nameOf e, typeOf e, la, lo⟩]
      else
        (⟨nameOf e, typeOf e, la, lo⟩ : Place) ::
          gta_go limit rest (nameOf e :: seen) (count + 1)

/-- `PlacesAgent.get_tourist_attractions` over the decoded element list. -/
def get_tourist_attractions (elements : List OElement) (limit : Nat) :
    List Place :=
  gta_go limit elements [] 0

/-- A string is whitespace-only (Python's view of "empty or blank" input). -/
def isWhitespaceOnly (s : Str) : Bool := s.all Char.isWhitespace

/-- Modelled from the claim wording of the delimiter step: cut at the
earliest occurrence of any delimiter in the candidate (the whole candidate
when none occurs). -/
def claimC4Trunc (s : Str) : Str :=
  s.take ((delimiters.filterMap (fun d => findSub d (toLowerStr s))).foldr min s.length)

/-- Modelled from the claim wording of the fallback: strip only trailing
punctuation from each whitespace token. -/
def stripTrailing (cs s : Str) : Str := (s.reverse.dropWhile (cs.contains ·)).reverse

/-- Modelled from the claim wording of the fallback (trailing-only strip):
keep cleaned tokens with an uppercase first character outside the skip set,
join with single spaces. -/
def claimC5Fallback (input : Str) : Str :=
  joinSep (S " ")
    (((words input).map (fun w => stripTrailing punctChars w)).filter
      (fun wc => isUpperFirst wc && !(skip_words.contains wc)))

/-- The amended fallback specification: punctuation is stripped from both
ends of each token; the cleaned tokens are tested and joined. -/
def specFallbackTokens (input : Str) : List Str :=
  ((words input).map (fun w => pyStripChars punctChars w)).filter
    (fun wc => !wc.isEmpty && isUpperFirst wc && !(skip_words.contains wc))

/-- Join of the amended fallback tokens. -/
def specFallback (input : Str) : Str := joinSep (S " ") (specFallbackTokens input)

/-- A concrete location used to instantiate collaborator parameters. -/
def locW : Location := ⟨S "Paris", 0, 0, S "Paris"⟩

/-- A concrete attraction list used to instantiate collaborator parameters. -/
def psW : List Place := [⟨S "Louvre", S "Museum", 0, 0⟩]

/-- A concrete overpass element with coordinates and a name tag. -/
def elemW : OElement := ⟨some 1, some 2, none, [(S "name", S "A")]⟩

/-! ## Characterisation of `findSub` -/

theorem findSub_some_occurs (n : Str) :
    ∀ (h : Str) (i : Nat), findSub n h = some i →
      n.isPrefixOf (h.drop i) = true := by
  intro h
  induction h with
  | nil =>
    intro i hi
    unfold findSub at hi
    split at hi
    · rename_i hp; cases hi; simpa using hp
    · cases hi
  | cons c t ih =>
    intro i hi
    unfold findSub at hi
    split at hi
    · rename_i hp; cases hi; simpa using hp
    · rcases Option.map_eq_some'.mp hi with ⟨i', hi', rfl⟩
      simpa [List.drop_succ_cons] using ih i' hi'

theorem findSub_some_min (n : Str) :
    ∀ (h : Str) (i : Nat), findSub n h = some i →
      ∀ j < i, n.isPrefixOf (h.drop j) = false := by
  intro h
  induction h with
  | nil =>
    intro i hi j hj
    unfold findSub at hi
    split at hi
    · cases hi; omega
    · cases hi
  | cons c t ih =>
    intro i hi j hj
    unfold findSub at hi
    split at hi
    · cases hi; omega
    · rename_i hp
      rcases Option.map_eq_some'.mp hi with ⟨i', hi', rfl⟩
      cases j with
      | zero => rw [List.drop_zero, ← Bool.not_eq_true]; exact hp
      | succ j' =>
        simpa [List.drop_succ_cons] using ih i' hi' j' (by omega)

theorem findSub_none_all (n : Str) :
    ∀ (h : Str), findSub n h = none →
      ∀ j, n.isPrefixOf (h.drop j) = false := by
  intro h
  induction h with
  | nil =>
    intro hn j
    unfold findSub at hn
    split at hn
    · cases hn
    · rename_i hp
      rw [List.drop_nil, ← Bool.not_eq_true]
      exact hp
  | cons c t ih =>
    intro hn j
    unfold findSub at hn
    split at hn
    · cases hn
    · rename_i hp
      have ht : findSub n t = none := by
        cases hfs : findSub n t with
        | none => rfl
        | some i => rw [hfs] at hn; cases hn
      cases j with
      | zero => rw [List.drop_zero, ← Bool.not_eq_true]; exact hp
      | succ j' => simpa [List.drop_succ_cons] using ih ht j'

theorem findSub_eq_some_of (n h : Str) (i : Nat)
    (hocc : n.isPrefixOf (h.drop i) = true)
    (hmin : ∀ j < i, n.isPrefixOf (h.drop j) = false) :
    findSub n h = some i := by
  cases hfs : findSub n h with
  | none =>
    have := findSub_none_all n h hfs i
    rw [hocc] at this; cases this
  | some i' =>
    have ho' := findSub_some_occurs n h i' hfs
    have hm' := findSub_some_min n h i' hfs
    rcases Nat.lt_trichotomy i i' with hlt | heq | hgt
    · have := hm' i hlt; rw [hocc] at this; cases this
    · rw [heq]
    · have := hmin i' hgt; rw [ho'] at this; cases this

theorem contains_all_false (hay n : Str) (h : containsSub hay n = false) :
    ∀ j, n.isPrefixOf (hay.drop j) = false := by
  intro j
  unfold containsSub at h
  cases hfs : findSub n hay with
  | none => exact findSub_none_all n hay hfs j
  | some i => rw [hfs] at h; cases h

/-! ## Whitespace lemmas (empty / blank input) -/

theorem contains_false_of_ws (hay n : Str)
    (hws : ∀ c ∈ hay, c.isWhitespace = true)
    (hn : ∃ c ∈ n, c.isWhitespace = false) : containsSub hay n = false := by
  unfold containsSub
  cases hfs : findSub n hay with
  | none => rfl
  | some i =>
    exfalso
    have hp := findSub_some_occurs n hay i hfs
    have hsub : n ⊆ hay :=
      List.Subset.trans (List.isPrefixOf_iff_prefix.mp hp).subset
        (List.drop_subset i hay)
    rcases hn with ⟨c, hc, hcw⟩
    have := hws c (hsub hc)
    rw [this] at hcw
    cases hcw

theorem lowerChar_ws (c : Char) (h : c.isWhitespace = true) : lowerChar c = c := by
  simp only [Char.isWhitespace, Bool.or_eq_true, decide_eq_true_eq] at h
  rcases h with ((rfl | rfl) | rfl) | rfl <;> decide

theorem toLowerStr_ws (s : Str) (h : ∀ c ∈ s, c.isWhitespace = true) :
    ∀ c ∈ toLowerStr s, c.isWhitespace = true := by
  intro c hc
  rcases List.mem_map.mp hc with ⟨c', hc', rfl⟩
  rw [lowerChar_ws c' (h c' hc')]
  exact h c' hc'

theorem padded_ws (s : Str) (h : ∀ c ∈ s, c.isWhitespace = true) :
    ∀ c ∈ S " " ++ toLowerStr s ++ S " ", c.isWhitespace = true := by
  intro c hc
  rcases List.mem_append.mp hc with h1 | h2
  · rcases List.mem_append.mp h1 with h3 | h4
    · have e : S " " = [' '] := rfl
      rw [e] at h3
      simp only [List.mem_singleton] at h3
      subst h3; decide
    · exact toLowerStr_ws s h c h4
  · have e : S " " = [' '] := rfl
    rw [e] at h2
    simp only [List.mem_singleton] at h2
    subst h2; decide

theorem tryPatterns_none_of_ws (input : Str)
    (hws : ∀ c ∈ input, c.isWhitespace = true) :
    ∀ ps : List (Str × Str),
      (∀ pr ∈ ps, ∃ c ∈ pr.2, c.isWhitespace = false) →
      tryPatterns input (toLowerStr input) ps = none := by
  intro ps
  induction ps with
  | nil => intro _; rfl
  | cons pr rest ih =>
    intro hall
    obtain ⟨p, search⟩ := pr
    have hfalse : containsSub (S " " ++ toLowerStr input ++ S " ") search = false :=
      contains_false_of_ws _ _ (padded_ws input hws)
        (hall (p, search) (List.mem_cons_self _ _))
    unfold tryPatterns
    rw [hfalse]
    simp only [Bool.false_eq_true, if_false]
    exact ih (fun q hq => hall q (List.mem_cons_of_mem _ hq))

theorem splitWSAux_ws (s : Str) (h : ∀ c ∈ s, c.isWhitespace = true) :
    splitWSAux s [] = [] := by
  induction s with
  | nil => rfl
  | cons c t ih =>
    unfold splitWSAux
    rw [h c (List.mem_cons_self _ _)]
    simp only [if_true, List.isEmpty_nil]
    exact ih (fun c' h' => h c' (List.mem_cons_of_mem _ h'))

theorem fallbackCap_ws (input : Str) (h : ∀ c ∈ input, c.isWhitespace = true) :
    fallbackCap input = [] := by
  simp [fallbackCap, words, splitWSAux_ws input h, capLoop]

theorem extract_place_ws (input : Str) (h : ∀ c ∈ input, c.isWhitespace = true) :
    extract_place input (toLowerStr input) = [] := by
  unfold extract_place
  rw [tryPatterns_none_of_ws input h patterns (by decide)]
  exact fallbackCap_ws input h

theorem needs_weather_ws (input : Str) (h : ∀ c ∈ input, c.isWhitespace = true) :
    needs_weather_of (toLowerStr input) = false := by
  unfold needs_weather_of
  rw [List.any_eq_false]
  intro k hk
  have hkne : ∀ k ∈ weather_keywords, ∃ c ∈ k, c.isWhitespace = false := by decide
  simp only [Bool.not_eq_true]
  exact contains_false_of_ws _ _ (toLowerStr_ws input h) (hkne k hk)

theorem needs_places_kw_ws (input : Str) (h : ∀ c ∈ input, c.isWhitespace = true) :
    needs_places_kw (toLowerStr input) = false := by
  unfold needs_places_kw
  rw [List.any_eq_false]
  intro k hk
  have hkne : ∀ k ∈ places_keywords, ∃ c ∈ k, c.isWhitespace = false := by decide
  simp only [Bool.not_eq_true]
  exact contains_false_of_ws _ _ (toLowerStr_ws input h) (hkne k hk)

theorem analyze_intent_ws (input : Str) (h : isWhitespaceOnly input = true) :
    analyze_intent input = ⟨[], false, false⟩ := by
  have hws : ∀ c ∈ input, c.isWhitespace = true := by
    rw [isWhitespaceOnly, List.all_eq_true] at h
    exact h
  have hpl := extract_place_ws input hws
  have hplan : containsSub (toLowerStr input) (S "plan") = false :=
    contains_false_of_ws _ _ (toLowerStr_ws input hws) (by decide)
  unfold analyze_intent needs_places_of
  simp only [hpl, needs_weather_ws input hws, needs_places_kw_ws input hws, hplan]
  simp

/-! ## Truncation lemmas (the delimiter loop) -/

theorem truncAt_front (s d : Str) : truncAt s d <+: s := by
  unfold truncAt
  split
  · exact List.take_prefix _ _
  · exact List.prefix_refl _

theorem toLowerStr_take (s : Str) (n : Nat) :
    toLowerStr (s.take n) = (toLowerStr s).take n := by
  simp [toLowerStr, List.map_take]

theorem prefix_drop (l₁ l₂ : Str) (n : Nat) (h : l₁ <+: l₂) :
    l₁.drop n <+: l₂.drop n := by
  rcases h with ⟨t, rfl⟩
  rw [List.drop_append_eq_append_drop]
  exact List.prefix_append _ _

theorem occursAt_mono (d l' l : Str) (h : l' <+: l) (q : Nat)
    (ho : d.isPrefixOf (l'.drop q) = true) : d.isPrefixOf (l.drop q) = true := by
  rw [List.isPrefixOf_iff_prefix] at ho ⊢
  exact ho.trans (prefix_drop l' l q h)

theorem truncAt_not_contains (s d : Str) (hd : d ≠ []) :
    containsSub (toLowerStr (truncAt s d)) d = false := by
  unfold truncAt
  cases hfs : findSub d (toLowerStr s) with
  | none => simp [containsSub, hfs]
  | some p =>
    simp only
    unfold containsSub
    cases hfs2 : findSub d (toLowerStr (s.take p)) with
    | none => rfl
    | some q =>
      exfalso
      have ho := findSub_some_occurs d _ q hfs2
      rw [toLowerStr_take] at ho
      have hq : q < p := by
        by_contra hge
        push_neg at hge
        have hdrop : ((toLowerStr s).take p).drop q = [] := by
          apply List.drop_eq_nil_of_le
          calc ((toLowerStr s).take p).length ≤ p := by
                rw [List.length_take]; exact min_le_left _ _
            _ ≤ q := hge
        rw [hdrop] at ho
        rw [List.isPrefixOf_iff_prefix, List.prefix_nil] at ho
        exact hd ho
      have ho' : d.isPrefixOf ((toLowerStr s).drop q) = true :=
        occursAt_mono d _ _ (List.take_prefix p (toLowerStr s)) q ho
      have hmin := findSub_some_min d (toLowerStr s) p hfs q hq
      rw [ho'] at hmin
      cases hmin

theorem not_contains_mono (d s' s : Str) (h : s' <+: s)
    (hc : containsSub (toLowerStr s) d = false) :
    containsSub (toLowerStr s') d = false := by
  unfold containsSub
  cases hfs : findSub d (toLowerStr s') with
  | none => rfl
  | some q =>
    exfalso
    have ho := findSub_some_occurs d _ q hfs
    have ho' : d.isPrefixOf ((toLowerStr s).drop q) = true :=
      occursAt_mono d _ _ (List.IsPrefix.map lowerChar h) q ho
    have := contains_all_false (toLowerStr s) d hc q
    rw [ho'] at this
    cases this

theorem foldl_truncAt_front (ds : List Str) :
    ∀ s : Str, ds.foldl truncAt s <+: s := by
  induction ds with
  | nil => intro s; exact List.prefix_refl s
  | cons d ds ih =>
    intro s
    rw [List.foldl_cons]
    exact (ih (truncAt s d)).trans (truncAt_front s d)

theorem foldl_truncAt_absent (ds : List Str) :
    ∀ s : Str, (∀ d ∈ ds, d ≠ []) →
      ∀ d ∈ ds, containsSub (toLowerStr (ds.foldl truncAt s)) d = false := by
  induction ds with
  | nil => intro s _ d hd; cases hd
  | cons d0 ds ih =>
    intro s hne d hd
    rw [List.foldl_cons]
    rcases List.mem_cons.mp hd with rfl | hd'
    · have h1 : containsSub (toLowerStr (truncAt s d)) d = false :=
        truncAt_not_contains s d (hne d (List.mem_cons_self _ _))
      exact not_contains_mono d _ _ (foldl_truncAt_front ds (truncAt s d)) h1
    · exact ih (truncAt s d0) (fun d' h' => hne d' (List.mem_cons_of_mem _ h')) d hd'

theorem capLoop_eq_filter (ws : List Str) :
    capLoop ws =
      (ws.map (fun w => pyStripChars punctChars w)).filter
        (fun wc => !wc.isEmpty && isUpperFirst wc && !(skip_words.contains wc)) := by
  induction ws with
  | nil => rfl
  | cons w rest ih =>
    unfold capLoop
    rw [List.map_cons, List.filter_cons]
    split
    · rename_i hc
      rw [if_pos hc, ih]
    · rename_i hc
      rw [if_neg hc, ih]

theorem fallbackCap_eq_specFallback (input : Str) :
    fallbackCap input = specFallback input := by
  unfold fallbackCap specFallback specFallbackTokens
  rw [capLoop_eq_filter]
  by_cases he :
      (List.filter (fun wc => !List.isEmpty wc && isUpperFirst wc &&
          !skip_words.contains wc)
        (List.map (fun w => pyStripChars punctChars w) (words input))).isEmpty = true
  · rw [List.isEmpty_iff] at he
    simp only [he, List.isEmpty_nil, if_true]
    rfl
  · rw [Bool.not_eq_true] at he
    simp only [he, Bool.false_eq_true, if_false]

/-! ## Orchestrator helper lemmas -/

theorem append_ne_nil_left (a b : Str) (h : a ≠ []) : a ++ b ≠ [] :=
  List.append_ne_nil_of_left_ne_nil h b

theorem take_append_le (a x : Str) (n : Nat) (h : n ≤ a.length) :
    (a ++ x).take n = a.take n := by
  rw [List.take_append_eq_append_take, Nat.sub_eq_zero_of_le h, List.take_zero,
    List.append_nil]

theorem ne_of_take3 (a b x y : Str) (ha : 3 ≤ a.length) (hb : 3 ≤ b.length)
    (hne : a.take 3 ≠ b.take 3) : a ++ x ≠ b ++ y := by
  intro h
  apply hne
  have h3 := congrArg (List.take 3) h
  rwa [take_append_le a x 3 ha, take_append_le b y 3 hb] at h3

theorem length_ge_of_take3 (x c : Str) (hc : c.length = 3) (h : x.take 3 = c) :
    3 ≤ x.length := by
  have hl := congrArg List.length h
  rw [List.length_take, hc] at hl
  exact min_eq_left_iff.mp hl

theorem joinSep_head (sep x : Str) (xs : List Str) :
    ∃ t, joinSep sep (x :: xs) = x ++ t := by
  cases xs with
  | nil => exact ⟨[], by simp [joinSep]⟩
  | cons y t =>
    exact ⟨sep ++ joinSep sep (y :: t), by simp [joinSep, List.append_assoc]⟩

theorem joinSep_ne_nil (sep : Str) (parts : List Str)
    (h : ∀ x ∈ parts, x ≠ []) (hp : parts ≠ []) : joinSep sep parts ≠ [] := by
  match parts with
  | [] => exact absurd rfl hp
  | [x] => simpa [joinSep] using h x (List.mem_singleton.mpr rfl)
  | x :: y :: t =>
    simp only [joinSep]
    exact append_ne_nil_left _ _
      (append_ne_nil_left _ _ (h x (List.mem_cons_self _ _)))

theorem weather_text_ne_nil (pl : Str) (w : WeatherInfo) :
    weather_text pl w ≠ [] := by
  unfold weather_text
  exact append_ne_nil_left _ _ (by decide)

theorem weatherApology_ne_nil (pl : Str) : weatherApology pl ≠ [] := by
  unfold weatherApology
  exact append_ne_nil_left _ _ (by decide)

theorem placesText_ne_nil (pl : Str) (ps : List Place) :
    placesText pl ps ≠ [] := by
  unfold placesText
  exact append_ne_nil_left _ _ (by decide)

theorem placesApology_ne_nil (pl : Str) : placesApology pl ≠ [] := by
  unfold placesApology
  exact append_ne_nil_left _ _ (by decide)

theorem notFoundMsg_ne_nil (pl : Str) : notFoundMsg pl ≠ [] := by
  unfold notFoundMsg
  exact append_ne_nil_left _ _ (by decide)

theorem noActionableMsg_ne_nil (pl : Str) : noActionableMsg pl ≠ [] := by
  unfold noActionableMsg
  exact append_ne_nil_left _ _ (by decide)

theorem build_parts_mem_ne_nil (getW : Location → Option WeatherInfo)
    (getP : Location → Nat → List Place) (intent : Intent) (loc : Location) :
    ∀ x ∈ build_parts getW getP intent loc, x ≠ [] := by
  intro x hx
  unfold build_parts weatherSection placesSection at hx
  rcases List.mem_append.mp hx with h1 | h2
  · split at h1
    · rw [List.mem_singleton] at h1
      subst h1
      cases hgw : getW loc with
      | some w => exact weather_text_ne_nil _ _
      | none => exact weatherApology_ne_nil _
    · cases h1
  · split at h2
    · rw [List.mem_singleton] at h2
      subst h2
      cases hgp : getP loc 5 with
      | nil => exact placesApology_ne_nil _
      | cons p t => exact placesText_ne_nil _ _
    · cases h2

theorem flags_of_place_nonempty (lower place : Str) (h : place ≠ []) :
    needs_weather_of lower = true ∨ needs_places_of lower place = true := by
  cases hw : needs_weather_of lower with
  | true => exact Or.inl rfl
  | false =>
    right
    unfold needs_places_of
    cases hp : (if containsSub lower (S "plan") && containsSub lower (S "trip")
        then true else needs_places_kw lower) with
    | true => simp [hp]
    | false => simp [hp, hw, List.isEmpty_eq_false.mpr h]

theorem analyze_flags (input : Str) (h : (analyze_intent input).place ≠ []) :
    (analyze_intent input).needs_weather = true ∨
      (analyze_intent input).needs_places = true := by
  simp only [analyze_intent] at h ⊢
  exact flags_of_place_nonempty _ _ h

theorem build_parts_ne_nil (getW : Location → Option WeatherInfo)
    (getP : Location → Nat → List Place) (intent : Intent) (loc : Location)
    (h : intent.needs_weather = true ∨ intent.needs_places = true) :
    build_parts getW getP intent loc ≠ [] := by
  intro he
  rw [build_parts, List.append_eq_nil] at he
  rcases h with h | h
  · have h1 := he.1
    rw [weatherSection, h] at h1
    simp at h1
  · have h2 := he.2
    rw [placesSection, h] at h2
    simp at h2

theorem build_parts_head_take3 (getW : Location → Option WeatherInfo)
    (getP : Location → Nat → List Place) (intent : Intent) (loc : Location)
    (x : Str) (xs : List Str)
    (h : build_parts getW getP intent loc = x :: xs) :
    x.take 3 = S "In " ∨ x.take 3 = S "I c" ∨ x.take 3 = S "Her" := by
  unfold build_parts weatherSection placesSection at h
  cases hw : intent.needs_weather with
  | true =>
    rw [hw] at h
    simp only [if_true, List.singleton_append] at h
    rw [List.cons.injEq] at h
    cases hgw : getW loc with
    | some w =>
      rw [hgw] at h
      left
      rw [← h.1]
      unfold weather_text
      rw [take_append_le _ _ 3 (by decide)]
      decide
    | none =>
      rw [hgw] at h
      right; left
      rw [← h.1]
      unfold weatherApology
      rw [take_append_le _ _ 3 (by decide)]
      decide
  | false =>
    rw [hw] at h
    simp only [Bool.false_eq_true, if_false, List.nil_append] at h
    cases hp : intent.needs_places with
    | false => rw [hp] at h; simp at h
    | true =>
      rw [hp] at h
      simp only [if_true] at h
      rw [List.cons.injEq] at h
      cases hgp : getP loc 5 with
      | nil =>
        rw [hgp] at h
        right; left
        rw [← h.1]
        unfold placesApology
        rw [take_append_le _ _ 3 (by decide)]
        decide
      | cons p t =>
        rw [hgp] at h
        right; right
        rw [← h.1]
        unfold placesText
        rw [take_append_le _ _ 3 (by decide)]
        decide

/-! ## Lemmas about the places loop -/

theorem gta_go_length (limit : Nat) :
    ∀ (es : List OElement) (seen : List Str) (count : Nat), count < limit →
      (gta_go limit es seen count).length ≤ limit - count := by
  intro es
  induction es with
  | nil => intro seen count h; simp [gta_go]
  | cons e rest ih =>
    intro seen count h
    unfold gta_go
    split
    · exact ih seen count h
    · split
      · exact ih seen count h
      · split
        · simp only [List.length_cons, List.length_nil]
          omega
        · rename_i hlim
          simp only [List.length_cons]
          have h2 := ih (nameOf e :: seen) (count + 1) (by omega)
          omega

theorem gta_go_name_ne (limit : Nat) :
    ∀ (es : List OElement) (seen : List Str) (count : Nat),
      ∀ p ∈ gta_go limit es seen count, p.name ≠ [] := by
  intro es
  induction es with
  | nil => intro seen count p hp; simp [gta_go] at hp
  | cons e rest ih =>
    intro seen count p hp
    unfold gta_go at hp
    split at hp
    · exact ih seen count p hp
    · split at hp
      · exact ih seen count p hp
      · rename_i hguard
        rw [Bool.not_eq_true, Bool.or_eq_false_iff] at hguard
        have hne : nameOf e ≠ [] := by
          rw [← List.isEmpty_eq_false]
          exact hguard.1
        split at hp
        · rw [List.mem_singleton] at hp
          subst hp
          exact hne
        · rcases List.mem_cons.mp hp with rfl | hp'
          · exact hne
          · exact ih (nameOf e :: seen) (count + 1) p hp'

theorem gta_go_names_notin (limit : Nat) :
    ∀ (es : List OElement) (seen : List Str) (count : Nat),
      ∀ n ∈ (gta_go limit es seen count).map Place.name,
        seen.contains n = false := by
  intro es
  induction es with
  | nil => intro seen count n hn; simp [gta_go] at hn
  | cons e rest ih =>
    intro seen count n hn
    unfold gta_go at hn
    split at hn
    · exact ih seen count n hn
    · split at hn
      · exact ih seen count n hn
      · rename_i hguard
        rw [Bool.not_eq_true, Bool.or_eq_false_iff] at hguard
        split at hn
        · simp only [List.map_cons, List.map_nil, List.mem_singleton] at hn
          subst hn
          exact hguard.2
        · simp only [List.map_cons, List.mem_cons] at hn
          rcases hn with rfl | hn'
          · exact hguard.2
          · have := ih (nameOf e :: seen) (count + 1) n hn'
            rw [List.contains_cons, Bool.or_eq_false_iff] at this
            exact this.2

theorem gta_go_names_nodup (limit : Nat) :
    ∀ (es : List OElement) (seen : List Str) (count : Nat),
      ((gta_go limit es seen count).map Place.name).Nodup := by
  intro es
  induction es with
  | nil => intro seen count; simp [gta_go]
  | cons e rest ih =>
    intro seen count
    unfold gta_go
    split
    · exact ih seen count
    · split
      · exact ih seen count
      · split
        · simp
        · simp only [List.map_cons]
          rw [List.nodup_cons]
          constructor
          · intro hmem
            have := gta_go_names_notin limit rest (nameOf e :: seen)
              (count + 1) (nameOf e) hmem
            rw [List.contains_cons] at this
            simp at this
          · exact ih (nameOf e :: seen) (count + 1)

theorem gta_go_sublist (limit : Nat) :
    ∀ (es : List OElement) (seen : List Str) (count : Nat),
      ((gta_go limit es seen count).map Place.name).Sublist
        (es.map nameOf) := by
  intro es
  induction es with
  | nil => intro seen count; simp [gta_go]
  | cons e rest ih =>
    intro seen count
    unfold gta_go
    split
    · exact (ih seen count).cons (nameOf e)
    · split
      · exact (ih seen count).cons (nameOf e)
      · split
        · simp only [List.map_cons, List.map_nil]
          exact (List.nil_sublist _).cons₂ (nameOf e)
        · simp only [List.map_cons]
          exact (ih (nameOf e :: seen) (count + 1)).cons₂ (nameOf e)

theorem gta_go_nil (limit : Nat) :
    ∀ (es : List OElement) (seen : List Str) (count : Nat),
      (∀ e ∈ es, coordsOf e = none ∨ (nameOf e).isEmpty = true) →
      gta_go limit es seen count = [] := by
  intro es
  induction es with
  | nil => intro seen count _; rfl
  | cons e rest ih =>
    intro seen count h
    have hrest : ∀ e' ∈ rest, coordsOf e' = none ∨ (nameOf e').isEmpty = true :=
      fun e' h' => h e' (List.mem_cons_of_mem _ h')
    unfold gta_go
    split
    · exact ih seen count hrest
    · rename_i x la lo heq
      rcases h e (List.mem_cons_self _ _) with hc | hn
      · rw [hc] at heq
        cases heq
      · rw [hn]
        simp only [Bool.true_or, if_true]
        exact ih seen count hrest

/-! ## The claims -/

/-- Claim C1: for every input text and all total collaborators,
`process_query` returns a nonempty text response (it is a total function of
its inputs, so it never raises), and whitespace-only input (including the
empty string) is analysed as no place and no intent, yielding the guidance
message. -/
theorem spec_c1_total (gc : Str → Option Location)
    (getW : Location → Option WeatherInfo)
    (getP : Location → Nat → List Place) (input : Str) :
    0 < (process_query gc getW getP input).length ∧
    (isWhitespaceOnly input = true →
      analyze_intent input = ⟨[], false, false⟩ ∧
      process_query gc getW getP input = guidanceMsg) := by
  constructor
  · rw [List.length_pos]
    unfold process_query
    split
    · decide
    · split
      · exact notFoundMsg_ne_nil _
      · rename_i x loc heq
        split
        · exact noActionableMsg_ne_nil _
        · rename_i hparts
          apply joinSep_ne_nil
          · exact build_parts_mem_ne_nil getW getP _ loc
          · rw [Bool.not_eq_true, List.isEmpty_eq_false] at hparts
            exact hparts
  · intro hws
    refine ⟨analyze_intent_ws input hws, ?_⟩
    unfold process_query
    rw [analyze_intent_ws input hws]
    rfl

/-- Witness for C1 at the whitespace-only input consisting of one space. -/
theorem spec_c1_witness :
    0 < (process_query (fun _ => none) (fun _ => none) (fun _ _ => [])
      (S " ")).length ∧
    (analyze_intent (S " ") = ⟨[], false, false⟩ ∧
      process_query (fun _ => none) (fun _ => none) (fun _ _ => []) (S " ") =
        guidanceMsg) :=
  ⟨(spec_c1_total (fun _ => none) (fun _ => none) (fun _ _ => []) (S " ")).1,
   (spec_c1_total (fun _ => none) (fun _ => none) (fun _ _ => []) (S " ")).2
     (by decide)⟩

/-- Claim C2: when both capabilities are requested, geocoding succeeds, the
weather lookup fails and the places lookup is nonempty, the response is the
weather apology naming the place, then the blank-line separator, then the
places section — the weather failure degrades only its own section. -/
theorem spec_c2_isolation (gc : Str → Option Location)
    (getW : Location → Option WeatherInfo)
    (getP : Location → Nat → List Place) (input : Str) (loc : Location)
    (ps : List Place)
    (hw : (analyze_intent input).needs_weather = true)
    (hp : (analyze_intent input).needs_places = true)
    (hpl : (analyze_intent input).place.isEmpty = false)
    (hgc : gc (analyze_intent input).place = some loc)
    (hwf : getW loc = none)
    (hps : getP loc 5 = ps)
    (hne : ps ≠ []) :
    process_query gc getW getP input =
      weatherApology (analyze_intent input).place ++ S "\n\n" ++
        placesText (analyze_intent input).place ps := by
  have hparts : build_parts getW getP (analyze_intent input) loc =
      [weatherApology (analyze_intent input).place,
       placesText (analyze_intent input).place ps] := by
    unfold build_parts weatherSection placesSection
    rw [hw, hp, hwf, hps]
    cases ps with
    | nil => exact absurd rfl hne
    | cons p t => simp
  unfold process_query
  rw [hpl]
  simp only [Bool.false_eq_true, if_false, hgc, hparts]
  simp [joinSep]

/-- Witness for C2 at a concrete utterance and concrete collaborators. -/
theorem spec_c2_witness :
    process_query (fun _ => some locW) (fun _ => none) (fun _ _ => psW)
        (S "Paris weather trip") =
      weatherApology (analyze_intent (S "Paris weather trip")).place ++
        S "\n\n" ++
        placesText (analyze_intent (S "Paris weather trip")).place psW :=
  spec_c2_isolation (fun _ => some locW) (fun _ => none) (fun _ _ => psW)
    (S "Paris weather trip") locW psW (by decide) (by decide) (by decide)
    rfl rfl rfl (by decide)

/-- Counterexample to C3 as stated: in `"going to X and going to Y"` the
first occurrence of the padded phrase `" going to "` in the padded
lower-cased text is at index 0, and the substring following it, truncated
and trimmed, is `"X"`; but the code extracts `"Y"`, because the slice index
comes from `find` on the unpadded text, whose first occurrence is the later
internal one. -/
theorem spec_c3_cex :
    (S " going to ").isPrefixOf
        ((S " " ++ toLowerStr (S "going to X and going to Y") ++ S " ").drop 0) =
      true ∧
    pyTrim (truncDelims ((S " " ++ S "going to X and going to Y" ++ S " ").drop
        (0 + (S " going to ").length))) = S "X" ∧
    extract_place (S "going to X and going to Y")
        (toLowerStr (S "going to X and going to Y")) = S "Y" ∧
    S "Y" ≠ S "X" := by decide

/-- Claim C3 (amended): the substring step uses the first occurrence of the
padded phrase in the *unpadded* lower-cased text whenever the phrase occurs
there: the candidate is the original text after that occurrence. -/
theorem spec_c3_first_unpadded (user_input search : Str) (i : Nat)
    (hocc : search.isPrefixOf ((toLowerStr user_input).drop i) = true)
    (hmin : ∀ j < i, search.isPrefixOf ((toLowerStr user_input).drop j) = false) :
    candidateOf user_input (toLowerStr user_input) search =
      user_input.drop (i + search.length) := by
  unfold candidateOf pyFindPlus
  rw [findSub_eq_some_of search (toLowerStr user_input) i hocc hmin]

/-- Witness for the amended C3 at a concrete input and pattern. -/
theorem spec_c3_witness :
    candidateOf (S "I am going to Rome") (toLowerStr (S "I am going to Rome"))
        (S " going to ") =
      (S "I am going to Rome").drop (4 + (S " going to ").length) :=
  spec_c3_first_unpadded (S "I am going to Rome") (S " going to ") 4
    (by decide) (by decide)

/-- Counterexample to C4 as stated: on the candidate `"x what and y"` the
earliest delimiter occurrence is `" what "` at index 1, but the code first
truncates at `" and "` (listed earlier), which destroys the `" what "`
occurrence, so the delimiter loop returns `"x what"`, not `"x"`. -/
theorem spec_c4_cex :
    truncDelims (S "x what and y") = S "x what" ∧
    claimC4Trunc (S "x what and y") = S "x" ∧
    truncDelims (S "x what and y") ≠ claimC4Trunc (S "x what and y") := by
  decide

/-- Claim C4 (amended): the delimiter loop truncates sequentially in list
order; the result is a prefix of the candidate in which no delimiter occurs
(case-insensitively), though it may extend past the earliest delimiter
occurrence of the original candidate. -/
theorem spec_c4_sequential (s : Str) :
    truncDelims s <+: s ∧
      ∀ d ∈ delimiters, containsSub (toLowerStr (truncDelims s)) d = false :=
  ⟨foldl_truncAt_front delimiters s,
   foldl_truncAt_absent delimiters s (by decide)⟩

/-- Witness for the amended C4 at a concrete candidate and delimiter. -/
theorem spec_c4_witness :
    truncDelims (S "a, b") <+: S "a, b" ∧
    containsSub (toLowerStr (truncDelims (S "a, b"))) (S ",") = false :=
  ⟨(spec_c4_sequential (S "a, b")).1,
   (spec_c4_sequential (S "a, b")).2 (S ",") (by decide)⟩

/-- Counterexample to C5 as stated: on input `"'Rome"` no lead-in phrase
matches; the claim's trailing-only stripping leaves the leading apostrophe
in place, so no token has an uppercase first character and the claimed
result is empty — but the code strips punctuation from both ends and
returns `"Rome"`. -/
theorem spec_c5_cex :
    tryPatterns (S "\x27Rome") (toLowerStr (S "\x27Rome")) patterns = none ∧
    extract_place (S "\x27Rome") (toLowerStr (S "\x27Rome")) = S "Rome" ∧
    claimC5Fallback (S "\x27Rome") = ([] : Str) ∧
    S "Rome" ≠ ([] : Str) := by decide

/-- Claim C5 (amended): when no lead-in pattern yields a nonempty candidate,
extraction returns the single-space join of the cleaned tokens — punctuation
`,.?!` apostrophe and double quote stripped from *both* ends — whose first
character is uppercase and which are not in the skip set. -/
theorem spec_c5_both_ends (input : Str)
    (h : tryPatterns input (toLowerStr input) patterns = none) :
    extract_place input (toLowerStr input) = specFallback input := by
  unfold extract_place
  rw [h]
  exact fallbackCap_eq_specFallback input

/-- Witness for the amended C5 at the input with a leading apostrophe. -/
theorem spec_c5_witness :
    extract_place (S "\x27Rome") (toLowerStr (S "\x27Rome")) =
      specFallback (S "\x27Rome") :=
  spec_c5_both_ends (S "\x27Rome") (by decide)

/-- Claim C6: whenever the extracted place is nonempty, at least one of the
two capability flags of the intent record is set (the default-intent rule
forces the places flag when neither keyword set matched). -/
theorem spec_c6_default_intent (input : Str)
    (h : (analyze_intent input).place ≠ []) :
    (analyze_intent input).needs_weather = true ∨
      (analyze_intent input).needs_places = true :=
  analyze_flags input h

/-- Witness for C6 at the keyword-free input with a nonempty place. -/
theorem spec_c6_witness :
    (analyze_intent (S "Berlin")).needs_weather = true ∨
      (analyze_intent (S "Berlin")).needs_places = true :=
  spec_c6_default_intent (S "Berlin") (by decide)

/-- Claim C7: on the pinned utterance, the first-listed pattern
`"going to "` wins, the comma truncates the candidate to `"Paris"`, and the
classifier sets the places flag but not the weather flag. -/
theorem spec_c7_pattern_precedence :
    analyze_intent (S "I\x27m going to Paris, let\x27s plan my trip") =
      ⟨S "Paris", false, true⟩ := by decide

/-- Counterexample to C8 as stated for every limit: the cap is checked after
appending, so with limit `0` one qualifying element still yields one entry. -/
theorem spec_c8_cex :
    ¬ (get_tourist_attractions [elemW] 0).length ≤ 0 := by decide

/-- Claim C8 (amended): for every element sequence and every limit of at
least one, the places list has at most `limit` entries, every entry has a
nonempty name, names are pairwise distinct, provider order is preserved, and
the result is empty (never an error) when no element qualifies. -/
theorem spec_c8_places (elements : List OElement) (limit : Nat)
    (h : 1 ≤ limit) :
    (get_tourist_attractions elements limit).length ≤ limit ∧
    (∀ p ∈ get_tourist_attractions elements limit, p.name ≠ []) ∧
    ((get_tourist_attractions elements limit).map Place.name).Nodup ∧
    ((get_tourist_attractions elements limit).map Place.name).Sublist
      (elements.map nameOf) ∧
    ((∀ e ∈ elements, coordsOf e = none ∨ (nameOf e).isEmpty = true) →
      get_tourist_attractions elements limit = []) := by
  refine ⟨?_, ?_, ?_, ?_, ?_⟩
  · have h0 := gta_go_length limit elements [] 0 (by omega)
    simpa using h0
  · exact gta_go_name_ne limit elements [] 0
  · exact gta_go_names_nodup limit elements [] 0
  · exact gta_go_sublist limit elements [] 0
  · exact gta_go_nil limit elements [] 0

/-- Witness for the amended C8 at one element and limit one. -/
theorem spec_c8_witness :
    (get_tourist_attractions [elemW] 1).length ≤ 1 ∧
    (∀ p ∈ get_tourist_attractions [elemW] 1, p.name ≠ []) ∧
    ((get_tourist_attractions [elemW] 1).map Place.name).Nodup ∧
    ((get_tourist_attractions [elemW] 1).map Place.name).Sublist
      ([elemW].map nameOf) ∧
    ((∀ e ∈ [elemW], coordsOf e = none ∨ (nameOf e).isEmpty = true) →
      get_tourist_attractions [elemW] 1 = []) :=
  spec_c8_places [elemW] 1 (by decide)

/-- Claim C9: `process_query` never returns the no-actionable-intent message
for the analysed place: whenever the place is nonempty, the default-intent
rule forces a flag, so the response-parts list is nonempty and the
empty-parts branch is unreachable. -/
theorem spec_c9_no_actionable (gc : Str → Option Location)
    (getW : Location → Option WeatherInfo)
    (getP : Location → Nat → List Place) (input : Str) :
    (process_query gc getW getP input ==
      noActionableMsg (analyze_intent input).place) = false := by
  rw [beq_eq_false_iff_ne]
  unfold process_query
  split
  · rename_i hpl
    have hplnil : (analyze_intent input).place = [] := List.isEmpty_iff.mp hpl
    rw [hplnil]
    decide
  · rename_i hpl
    have hplne : (analyze_intent input).place ≠ [] := by
      rw [Bool.not_eq_true, List.isEmpty_eq_false] at hpl
      exact hpl
    split
    · unfold notFoundMsg noActionableMsg
      exact ne_of_take3 _ _ _ _ (by decide) (by decide) (by decide)
    · rename_i x loc heq
      split
      · rename_i hparts
        exact absurd (List.isEmpty_iff.mp hparts)
          (build_parts_ne_nil getW getP _ loc (analyze_flags input hplne))
      · rename_i hparts
        rw [Bool.not_eq_true, List.isEmpty_eq_false] at hparts
        obtain ⟨x, xs, hx⟩ : ∃ x xs,
            build_parts getW getP (analyze_intent input) loc = x :: xs := by
          cases hbp : build_parts getW getP (analyze_intent input) loc with
          | nil => exact absurd hbp hparts
          | cons a b => exact ⟨a, b, rfl⟩
        rw [hx]
        obtain ⟨t, ht⟩ := joinSep_head (S "\n\n") x xs
        rw [ht]
        have h3 := build_parts_head_take3 getW getP _ loc x xs hx
        unfold noActionableMsg
        rcases h3 with h3 | h3 | h3
        · exact ne_of_take3 _ _ _ _
            (length_ge_of_take3 x (S "In ") (by decide) h3) (by decide)
            (by rw [h3]; decide)
        · exact ne_of_take3 _ _ _ _
            (length_ge_of_take3 x (S "I c") (by decide) h3) (by decide)
            (by rw [h3]; decide)
        · exact ne_of_take3 _ _ _ _
            (length_ge_of_take3 x (S "Her") (by decide) h3) (by decide)
            (by rw [h3]; decide)

/-- Claim C10: on the keyword-only input, the fallback keeps the token with
the apostrophe (the skip set holds only the bare word), so extraction yields
a nonempty place and `process_query` proceeds to geocoding — with a missing
geocoder it returns the place-not-found message, not the no-place guidance. -/
theorem spec_c10_keyword_only :
    (analyze_intent (S "What\x27s the weather")).place = S "What\x27s" ∧
    process_query (fun _ => none) (fun _ => none) (fun _ _ => [])
        (S "What\x27s the weather") = notFoundMsg (S "What\x27s") := by decide

